import Mathlib

/-!
Verification of the prompt-catalog frontend logic of the LLM-Prompts
repository: the content splitter and category parser of
src/frontend/src/components/PromptModal.jsx and PromptCard.jsx, and the
duplicate guard and submit path of src/frontend/src/pages/AddPromptPage.jsx.
JavaScript strings are modelled as lists of characters; string methods
(trim, includes, indexOf, split, toLowerCase) are embedded below.
-/

namespace PromptRepo

/-- Model of a JavaScript string: a list of characters. -/
abbrev Str := List Char

/-- Whitespace recognized by JavaScript trim (the ASCII subset: space, tab,
line feed, vertical tab, form feed, carriage return). -/
def isJsWS (c : Char) : Bool :=
  c == ' ' || c == '\t' || c == '\n' || c == '\x0b' || c == '\x0c' || c == '\r'

/-- JavaScript String.prototype.trim: drop leading and trailing whitespace. -/
def jsTrim (s : Str) : Str :=
  ((s.dropWhile isJsWS).reverse.dropWhile isJsWS).reverse

/-- Whether pat is an initial segment of s. -/
def leadsWith : Str → Str → Bool
  | [], _ => true
  | _ :: _, [] => false
  | p :: ps, c :: cs => p == c && leadsWith ps cs

/-- Index of the first occurrence of pat in s (JavaScript indexOf, as an
Option instead of the sentinel -1). -/
def idxOf? (pat : Str) : Str → Option Nat
  | [] => if leadsWith pat [] then some 0 else none
  | c :: cs => if leadsWith pat (c :: cs) then some 0 else (idxOf? pat cs).map (· + 1)

/-- JavaScript String.prototype.includes. -/
def jsIncludes (pat s : Str) : Bool :=
  (idxOf? pat s).isSome

/-- Fuel-driven worker for jsSplit: cut at the first occurrence of sep and
recurse on the remainder. With fuel at least the length of the string and a
non-empty separator the fuel never runs out. -/
def jsSplitAux (sep : Str) : Nat → Str → List Str
  | 0, s => [s]
  | fuel + 1, s =>
    match idxOf? sep s with
    | none => [s]
    | some i => s.take i :: jsSplitAux sep fuel (s.drop (i + sep.length))

/-- JavaScript String.prototype.split with a non-empty string separator:
cut at every leftmost-first, non-overlapping occurrence. -/
def jsSplit (sep s : Str) : List Str :=
  jsSplitAux sep s.length s

/-- ASCII lower-casing of one character: the effect of JavaScript
toLowerCase and of the regex i flag on the ASCII phrases used here. -/
def lowerA (c : Char) : Char :=
  if 65 ≤ c.toNat ∧ c.toNat ≤ 90 then Char.ofNat (c.toNat + 32) else c

/-- ASCII lower-casing of a string. -/
def lowerStr (s : Str) : Str :=
  s.map lowerA

/-- Index of the first case-insensitive occurrence of pat in s: the match
index of a case-insensitive regex search for the literal pat. -/
def idxOfCI? (pat s : Str) : Option Nat :=
  idxOf? (lowerStr pat) (lowerStr s)

/-- Literal delimiter between instructional text and example section. -/
def exDelim : Str :=
  "---EXAMPLE---".toList

/-- Heuristic example markers of separatePromptAndExample (PromptModal.jsx),
in source order. -/
def markers : List Str :=
  ["Example:".toList, "Example Output:".toList, "Sample Output:".toList,
   "Sample Expected Output:".toList, "Example Input:".toList,
   "Sample Answer:".toList, "Example Analysis:".toList,
   "Example Classification:".toList, "Sample Example:".toList]

/-- Body of the marker loop of separatePromptAndExample: update the best
split index with marker m. A missing splitIndex (the sentinel -1) is none;
the loop variable foundMarker does not affect the returned value and is
omitted. -/
def markerStep (text : Str) (acc : Option Nat) (m : Str) : Option Nat :=
  match idxOfCI? ('\n' :: m) text with
  | none => acc
  | some i =>
    match acc with
    | none => some i
    | some j => if i < j then some i else acc

/-- The splitIndex computed by the marker loop of separatePromptAndExample:
the lowest match index, over all markers, of a case-insensitive search for
newline-plus-marker. -/
def findMarkerIdx (text : Str) : Option Nat :=
  markers.foldl (markerStep text) none

/-- Result of the content splitter. The source field named example is
called ex here, example being a reserved word of Lean. -/
structure SplitResult where
  prompt : Str
  ex : Option Str
deriving Repr, DecidableEq

/-- Model of separatePromptAndExample (PromptModal.jsx lines 24 to 74):
empty input short-circuits; an input containing the literal delimiter is
split with String.prototype.split, keeping parts 0 and 1; otherwise the
first case-insensitive newline-preceded marker splits the text; otherwise
the whole trimmed text is the prompt. -/
def separatePromptAndExample (text : Str) : SplitResult :=
  if text = [] then { prompt := [], ex := none }
  else if jsIncludes exDelim text = true then
    let parts := jsSplit exDelim text
    { prompt := jsTrim (parts.getD 0 []),
      ex := if 1 < parts.length then some (jsTrim (parts.getD 1 [])) else none }
  else
    match findMarkerIdx text with
    | some i => { prompt := jsTrim (text.take i), ex := some (jsTrim (text.drop i)) }
    | none => { prompt := jsTrim text, ex := none }

/-- Fallback markers of getPromptOnly (PromptCard.jsx), in source order.
Unlike the modal list these are searched case-sensitively and in priority
order, not by lowest offset. -/
def cardMarkers : List Str :=
  ["Example:".toList, "Sample Output:".toList, "Example Output:".toList]

/-- Index where getPromptOnly splits in its fallback: the first marker of
cardMarkers that occurs (case-sensitive, preceded by a newline) wins, at its
own first index. -/
def firstCardMarkerIdx (text : Str) : Option Nat :=
  cardMarkers.findSome? fun m => idxOf? ('\n' :: m) text

/-- Model of getPromptOnly (PromptCard.jsx lines 40 to 54): the preview
extraction. With no delimiter and no card marker the text is returned
untrimmed. -/
def getPromptOnly (text : Str) : Str :=
  if text = [] then []
  else if jsIncludes exDelim text = true then jsTrim ((jsSplit exDelim text).getD 0 [])
  else
    match firstCardMarkerIdx text with
    | some i => jsTrim (text.take i)
    | none => text

/-- Model of the clipboard text computed by handleCopy (PromptCard.jsx
lines 6 to 21): only the literal delimiter is handled, with no marker
fallback and no trim in the fallback-free case. -/
def handleCopyText (text : Str) : Str :=
  if jsIncludes exDelim text = true then jsTrim ((jsSplit exDelim text).getD 0 [])
  else text

/-- Hierarchical category separator. -/
def catSep : Str :=
  " > ".toList

/-- Result of parseCategory. -/
structure CatParts where
  main : Option Str
  sub : Str
deriving Repr, DecidableEq

/-- Model of parseCategory (identical in PromptCard.jsx lines 29 to 35 and
PromptModal.jsx lines 105 to 111): when the category is truthy and contains
the separator, destructure its split as the pair of the first two parts;
otherwise main is null and sub the whole string. -/
def parseCategory (category : Str) : CatParts :=
  if category ≠ [] ∧ jsIncludes catSep category = true then
    { main := some ((jsSplit catSep category).getD 0 []),
      sub := (jsSplit catSep category).getD 1 [] }
  else { main := none, sub := category }

/-- The fields of a stored prompt the duplicate guard reads. -/
structure Artifact where
  title : Str
  category : Str
deriving Repr, DecidableEq

/-- Model of the duplicate check of handleSubmit (AddPromptPage.jsx lines
372 to 376): some existing p with p.title.trim().toLowerCase() equal to the
candidate title trimmed and lower-cased, and p.category.toLowerCase() equal
to the candidate category lower-cased (the category is not trimmed). -/
def isDuplicate (existing : List Artifact) (cand : Artifact) : Bool :=
  existing.any fun p =>
    (lowerStr (jsTrim p.title) == lowerStr (jsTrim cand.title)) &&
    (lowerStr p.category == lowerStr cand.category)

/-- Collision rule as claim C4 states it: title and category each compared
case-insensitively after trimming. Stated from the claim, for comparison
with isDuplicate. -/
def claimCollides (p cand : Artifact) : Bool :=
  (lowerStr (jsTrim p.title) == lowerStr (jsTrim cand.title)) &&
  (lowerStr (jsTrim p.category) == lowerStr (jsTrim cand.category))

/-- The form fields of AddPromptPage that the submit path reads. -/
structure FormData where
  title : Str
  prompt_text : Str
  example_output : Str
  category : Str
deriving Repr, DecidableEq

/-- Error message set by handleSubmit on a duplicate. -/
def dupErrorMsg : Str :=
  "A prompt with this title and category already exists. Please use a different title or category.".toList

/-- Joiner inserted between prompt text and example output on submit. -/
def exampleJoiner : Str :=
  "\n\n---EXAMPLE---\n\n".toList

/-- Model of the body combination in handleSubmit (AddPromptPage.jsx lines
389 to 393): append the joiner and the example output when the trimmed
example output is non-empty. -/
def finalPromptText (f : FormData) : Str :=
  if jsTrim f.example_output ≠ [] then f.prompt_text ++ exampleJoiner ++ f.example_output
  else f.prompt_text

/-- The externally visible action handleSubmit takes. -/
inductive SubmitAction where
  | reject (msg : Str)
  | create (title body category : Str)
deriving Repr, DecidableEq

/-- Model of handleSubmit (AddPromptPage.jsx lines 368 to 421): on a
duplicate it sets the error and returns before promptsAPI.createPrompt is
reached; otherwise it creates with the combined body. -/
def handleSubmit (existing : List Artifact) (f : FormData) : SubmitAction :=
  if isDuplicate existing { title := f.title, category := f.category } = true then
    SubmitAction.reject dupErrorMsg
  else
    SubmitAction.create f.title (finalPromptText f) f.category

/-- Effect of a submit action on the stored artifact set: a rejection
leaves the store unchanged, a create appends the new artifact. -/
def applySubmit (store : List Artifact) : SubmitAction → List Artifact
  | SubmitAction.reject _ => store
  | SubmitAction.create t _ c => store ++ [{ title := t, category := c }]

/-- A stored prompt as the listing endpoint orders it. -/
structure StoredArtifact where
  id : Nat
  createdAt : Nat
  title : Str
  category : Str
deriving Repr, DecidableEq

/-- Projection of a stored artifact to the fields the guard reads. -/
def toArtifact (a : StoredArtifact) : Artifact :=
  { title := a.title, category := a.category }

/-- Date-descending order of the listing: newer first, ties by id
descending. -/
def dateDescLE (a b : StoredArtifact) : Bool :=
  (b.createdAt < a.createdAt) || (b.createdAt == a.createdAt && b.id ≤ a.id)

/-- Insertion step of the date-descending sort. -/
def insertDesc (a : StoredArtifact) : List StoredArtifact → List StoredArtifact
  | [] => [a]
  | b :: bs => if dateDescLE a b = true then a :: b :: bs else b :: insertDesc a bs

/-- Insertion sort by date descending. -/
def sortByDateDesc : List StoredArtifact → List StoredArtifact
  | [] => []
  | a :: as => insertDesc a (sortByDateDesc as)

/-- Modelled from the spec: the backend listing endpoint GET /api/prompts is
not under src/. Per section 4.4, with no category or search filter and the
default sort it orders by createdAt descending (ties by id descending),
applies offset 0 and truncates to at most limit results. loadPrompts
(AddPromptPage.jsx lines 331 to 344) requests it with limit=500. -/
def listPrompts (store : List StoredArtifact) (lim : Nat) : List StoredArtifact :=
  (sortByDateDesc store).take lim

/-- Title of the filler artifacts of the C2 scenario. -/
def otherTitle : Str :=
  "other".toList

/-- Title of the colliding artifact of the C2 scenario. -/
def dupTitle : Str :=
  "dup".toList

/-- Category shared by all artifacts of the C2 scenario. -/
def demoCat : Str :=
  "c".toList

/-- Filler artifact number k of the C2 scenario. -/
def mkOther (k : Nat) : StoredArtifact :=
  { id := k, createdAt := k, title := otherTitle, category := demoCat }

/-- The oldest artifact of the C2 scenario, the one that collides with the
candidate. -/
def dupArt : StoredArtifact :=
  { id := 0, createdAt := 0, title := dupTitle, category := demoCat }

/-- A store of n newer filler artifacts followed by the old colliding one,
already in date-descending order. -/
def descList : Nat → List StoredArtifact
  | 0 => [dupArt]
  | n + 1 => mkOther (n + 1) :: descList n

/-- The C2 store: 501 artifacts, the colliding one oldest. -/
def c2Store : List StoredArtifact :=
  descList 500

/-- The C2 candidate submission. -/
def c2Candidate : Artifact :=
  { title := dupTitle, category := demoCat }

/-- What the duplicate guard actually consults: the listing fetched with
limit=500, projected to guard fields. -/
def c2Fetched : List Artifact :=
  (listPrompts c2Store 500).map toArtifact

/-- Occurrence of pat in s at index i. -/
def OccAt (pat s : Str) (i : Nat) : Prop :=
  leadsWith pat (s.drop i) = true

/-- First occurrence of pat in s at index i. -/
def FirstOccAt (pat s : Str) (i : Nat) : Prop :=
  OccAt pat s i ∧ ∀ j < i, ¬ OccAt pat s j

/-- A case-insensitive newline-preceded occurrence of some modal marker at
index i of text. -/
def MarkerAt (text : Str) (i : Nat) : Prop :=
  ∃ m ∈ markers, OccAt (lowerStr ('\n' :: m)) (lowerStr text) i

/-- The lowest-offset marker occurrence. -/
def FirstMarkerAt (text : Str) (i : Nat) : Prop :=
  MarkerAt text i ∧ ∀ j < i, ¬ MarkerAt text j

/-- Minimum of two optional naturals, none meaning absent. -/
def optMin : Option Nat → Option Nat → Option Nat
  | none, b => b
  | some j, none => some j
  | some j, some i => if i < j then some i else some j

instance (pat s : Str) (i : Nat) : Decidable (OccAt pat s i) := by
  unfold OccAt
  infer_instance

instance (pat s : Str) (i : Nat) : Decidable (FirstOccAt pat s i) := by
  unfold FirstOccAt
  infer_instance

instance (text : Str) (i : Nat) : Decidable (MarkerAt text i) := by
  unfold MarkerAt
  infer_instance

instance (text : Str) (i : Nat) : Decidable (FirstMarkerAt text i) := by
  unfold FirstMarkerAt
  infer_instance

/-! ### Basic facts about leadsWith, idxOf? and occurrences -/

theorem leadsWith_nil_iff (p : Str) : leadsWith p [] = true ↔ p = [] := by
  cases p <;> simp [leadsWith]

theorem leadsWith_iff_append (p : Str) : ∀ s, leadsWith p s = true ↔ ∃ t, s = p ++ t := by
  induction p with
  | nil => intro s; simp [leadsWith]
  | cons a ps ih =>
    intro s
    cases s with
    | nil => simp [leadsWith]
    | cons c cs =>
      simp only [leadsWith, Bool.and_eq_true, beq_iff_eq, ih, List.cons_append,
        List.cons.injEq]
      constructor
      · rintro ⟨rfl, t, rfl⟩; exact ⟨t, rfl, rfl⟩
      · rintro ⟨t, rfl, rfl⟩; exact ⟨rfl, t, rfl⟩

theorem leadsWith_append_right (p s v : Str) (h : leadsWith p s = true) :
    leadsWith p (s ++ v) = true := by
  obtain ⟨t, rfl⟩ := (leadsWith_iff_append p s).mp h
  exact (leadsWith_iff_append p _).mpr ⟨t ++ v, by simp⟩

theorem occAt_lt_length (pat s : Str) (i : Nat) (hp : pat ≠ []) (h : OccAt pat s i) :
    i < s.length := by
  by_contra hge
  push_neg at hge
  unfold OccAt at h
  rw [List.drop_eq_nil_of_le hge] at h
  exact hp ((leadsWith_nil_iff pat).mp h)

theorem idxOf?_eq_none_iff (pat : Str) :
    ∀ s, idxOf? pat s = none ↔ ∀ i, ¬ OccAt pat s i := by
  intro s
  induction s with
  | nil =>
    unfold idxOf?
    by_cases h : leadsWith pat [] = true
    · rw [if_pos h]
      simp only [false_iff, not_forall, reduceCtorEq]
      exact ⟨0, by simpa [OccAt] using h⟩
    · rw [if_neg h]
      simp only [true_iff]
      intro i hocc
      exact h (by simpa [OccAt, List.drop_nil] using hocc)
  | cons c cs ih =>
    unfold idxOf?
    by_cases h : leadsWith pat (c :: cs) = true
    · rw [if_pos h]
      simp only [false_iff, not_forall, reduceCtorEq]
      exact ⟨0, by simpa [OccAt] using h⟩
    · rw [if_neg h]
      rw [Option.map_eq_none', ih]
      constructor
      · intro hall i
        cases i with
        | zero => intro hocc; exact h (by simpa [OccAt] using hocc)
        | succ j => exact hall j
      · intro hall i
        exact hall (i + 1)

theorem idxOf?_eq_some_iff (pat : Str) :
    ∀ s i, idxOf? pat s = some i ↔ FirstOccAt pat s i := by
  intro s
  induction s with
  | nil =>
    intro i
    unfold idxOf?
    by_cases h : leadsWith pat [] = true
    · rw [if_pos h]
      constructor
      · intro hi
        injection hi with hi
        subst hi
        exact ⟨by simpa [OccAt] using h, by omega⟩
      · rintro ⟨_, hmin⟩
        cases i with
        | zero => rfl
        | succ j => exact absurd (by simpa [OccAt] using h : OccAt pat [] j) (hmin j (by omega))
    · rw [if_neg h]
      constructor
      · intro hi; exact absurd hi (by simp)
      · rintro ⟨hocc, _⟩
        exact absurd (by simpa [OccAt, List.drop_nil] using hocc) h
  | cons c cs ih =>
    intro i
    unfold idxOf?
    by_cases h : leadsWith pat (c :: cs) = true
    · rw [if_pos h]
      constructor
      · intro hi
        injection hi with hi
        subst hi
        exact ⟨by simpa [OccAt] using h, by omega⟩
      · rintro ⟨_, hmin⟩
        cases i with
        | zero => rfl
        | succ j =>
          exact absurd (by simpa [OccAt] using h : OccAt pat (c :: cs) 0) (hmin 0 (by omega))
    · rw [if_neg h]
      constructor
      · intro hi
        obtain ⟨k, hk, rfl⟩ := Option.map_eq_some'.mp hi
        obtain ⟨hocc, hmin⟩ := (ih k).mp hk
        refine ⟨hocc, ?_⟩
        intro j hj
        cases j with
        | zero => intro hocc0; exact h (by simpa [OccAt] using hocc0)
        | succ l => exact hmin l (by omega)
      · rintro ⟨hocc, hmin⟩
        cases i with
        | zero => exact absurd (by simpa [OccAt] using hocc) h
        | succ l =>
          have : idxOf? pat cs = some l := by
            refine (ih l).mpr ⟨hocc, ?_⟩
            intro j hj hocc'
            exact hmin (j + 1) (by omega) hocc'
          rw [this]
          rfl

theorem idxOf?_le_of_occAt (pat s : Str) (j : Nat) (h : OccAt pat s j) :
    ∃ i, i ≤ j ∧ idxOf? pat s = some i := by
  cases hidx : idxOf? pat s with
  | none => exact absurd h ((idxOf?_eq_none_iff pat s).mp hidx j)
  | some i =>
    refine ⟨i, ?_, rfl⟩
    by_contra hlt
    push_neg at hlt
    exact ((idxOf?_eq_some_iff pat s i).mp hidx).2 j hlt h

theorem jsIncludes_eq_true_iff (pat s : Str) :
    jsIncludes pat s = true ↔ ∃ i, OccAt pat s i := by
  unfold jsIncludes
  cases hidx : idxOf? pat s with
  | none =>
    simp only [Option.isSome_none, false_iff, not_exists, reduceCtorEq]
    exact fun i => (idxOf?_eq_none_iff pat s).mp hidx i
  | some i =>
    simp only [Option.isSome_some, true_iff]
    exact ⟨i, ((idxOf?_eq_some_iff pat s i).mp hidx).1⟩

theorem jsIncludes_eq_false_iff (pat s : Str) :
    jsIncludes pat s = false ↔ ∀ i, ¬ OccAt pat s i := by
  rw [← Bool.not_eq_true, ← not_exists]
  exact not_congr (jsIncludes_eq_true_iff pat s)

/-! ### Characterization of jsSplit -/

theorem idxOf?_nil_of_ne (pat : Str) (hp : pat ≠ []) : idxOf? pat [] = none := by
  unfold idxOf?
  rw [if_neg]
  intro h
  exact hp ((leadsWith_nil_iff pat).mp h)

theorem jsSplitAux_nil (sep : Str) (hsep : sep ≠ []) :
    ∀ fuel, jsSplitAux sep fuel [] = [[]] := by
  intro fuel
  cases fuel with
  | zero => rfl
  | succ f =>
    unfold jsSplitAux
    rw [idxOf?_nil_of_ne sep hsep]

theorem jsSplitAux_stable (sep : Str) (hsep : sep ≠ []) :
    ∀ f₁ f₂ s, s.length ≤ f₁ → s.length ≤ f₂ →
      jsSplitAux sep f₁ s = jsSplitAux sep f₂ s := by
  intro f₁
  induction f₁ with
  | zero =>
    intro f₂ s h1 _
    have hs : s = [] := List.eq_nil_of_length_eq_zero (Nat.le_zero.mp h1)
    subst hs
    rw [jsSplitAux_nil sep hsep, jsSplitAux_nil sep hsep]
  | succ f ih =>
    intro f₂ s h1 h2
    cases s with
    | nil => rw [jsSplitAux_nil sep hsep, jsSplitAux_nil sep hsep]
    | cons c cs =>
      cases f₂ with
      | zero => simp at h2
      | succ g =>
        show jsSplitAux sep (f + 1) (c :: cs) = jsSplitAux sep (g + 1) (c :: cs)
        unfold jsSplitAux
        cases hidx : idxOf? sep (c :: cs) with
        | none => rfl
        | some i =>
          have hsl : 1 ≤ sep.length := by
            cases sep with
            | nil => exact absurd rfl hsep
            | cons _ _ => simp
          have hlen1 : ((c :: cs).drop (i + sep.length)).length ≤ f := by
            rw [List.length_drop]
            simp only [List.length_cons] at h1 ⊢
            omega
          have hlen2 : ((c :: cs).drop (i + sep.length)).length ≤ g := by
            rw [List.length_drop]
            simp only [List.length_cons] at h2 ⊢
            omega
          exact congrArg (List.cons _) (ih g _ hlen1 hlen2)

theorem jsSplit_eq_match (sep : Str) (hsep : sep ≠ []) (s : Str) :
    jsSplit sep s =
      match idxOf? sep s with
      | none => [s]
      | some i => s.take i :: jsSplit sep (s.drop (i + sep.length)) := by
  cases s with
  | nil =>
    rw [show jsSplit sep [] = jsSplitAux sep 0 [] from rfl, jsSplitAux_nil sep hsep,
      idxOf?_nil_of_ne sep hsep]
  | cons c cs =>
    show jsSplitAux sep (cs.length + 1) (c :: cs) = _
    unfold jsSplitAux
    cases hidx : idxOf? sep (c :: cs) with
    | none => rfl
    | some i =>
      refine congrArg (List.cons _) ?_
      have hsl : 1 ≤ sep.length := by
        cases sep with
        | nil => exact absurd rfl hsep
        | cons _ _ => simp
      refine jsSplitAux_stable sep hsep cs.length _ _ ?_ (le_refl _)
      rw [List.length_drop]
      simp only [List.length_cons]
      omega

theorem jsSplit_of_none (sep : Str) (hsep : sep ≠ []) (s : Str)
    (h : idxOf? sep s = none) : jsSplit sep s = [s] := by
  rw [jsSplit_eq_match sep hsep s, h]

theorem jsSplit_of_some (sep : Str) (hsep : sep ≠ []) (s : Str) (i : Nat)
    (h : idxOf? sep s = some i) :
    jsSplit sep s = s.take i :: jsSplit sep (s.drop (i + sep.length)) := by
  rw [jsSplit_eq_match sep hsep s, h]

theorem jsSplit_ne_nil (sep : Str) (hsep : sep ≠ []) (s : Str) : jsSplit sep s ≠ [] := by
  rw [jsSplit_eq_match sep hsep s]
  cases idxOf? sep s <;> simp

theorem jsSplit_head_getD (sep : Str) (hsep : sep ≠ []) (s : Str) :
    (jsSplit sep s).getD 0 [] =
      match idxOf? sep s with
      | none => s
      | some i => s.take i := by
  cases hidx : idxOf? sep s with
  | none => rw [jsSplit_of_none sep hsep s hidx]; rfl
  | some i => rw [jsSplit_of_some sep hsep s i hidx]; rfl

theorem jsSplit_parts_of_some (sep : Str) (hsep : sep ≠ []) (s : Str) (i : Nat)
    (hidx : idxOf? sep s = some i) :
    (jsSplit sep s).getD 0 [] = s.take i ∧
    1 < (jsSplit sep s).length ∧
    (jsSplit sep s).getD 1 [] = (jsSplit sep (s.drop (i + sep.length))).getD 0 [] := by
  rw [jsSplit_of_some sep hsep s i hidx]
  refine ⟨rfl, ?_, rfl⟩
  have hne := jsSplit_ne_nil sep hsep (s.drop (i + sep.length))
  have hpos : 0 < (jsSplit sep (s.drop (i + sep.length))).length := List.length_pos.mpr hne
  simp only [List.length_cons]
  omega

/-! ### Facts about jsTrim -/

theorem dropWhile_dropWhile (p : Char → Bool) :
    ∀ s : Str, (s.dropWhile p).dropWhile p = s.dropWhile p := by
  intro s
  induction s with
  | nil => rfl
  | cons c cs ih =>
    by_cases h : p c = true
    · simp only [List.dropWhile, h]
      exact ih
    · rw [Bool.not_eq_true] at h
      simp only [List.dropWhile, h]

theorem length_dropWhile_le (p : Char → Bool) :
    ∀ s : Str, (s.dropWhile p).length ≤ s.length := by
  intro s
  induction s with
  | nil => exact le_refl _
  | cons c cs ih =>
    by_cases h : p c = true
    · simp only [List.dropWhile, h]
      exact le_trans ih (by simp)
    · rw [Bool.not_eq_true] at h
      simp only [List.dropWhile, h]
      exact le_refl _

theorem head_not_of_dropWhile_self (p : Char → Bool) (c : Char) (cs : Str)
    (h : List.dropWhile p (c :: cs) = c :: cs) : p c = false := by
  by_contra hpc
  rw [Bool.not_eq_false] at hpc
  simp only [List.dropWhile, hpc] at h
  have hle := length_dropWhile_le p cs
  rw [h] at hle
  simp only [List.length_cons] at hle
  omega

theorem takeWhile_all_ws (p : Char → Bool) : ∀ s : Str, (s.takeWhile p).all p = true := by
  intro s
  induction s with
  | nil => rfl
  | cons c cs ih =>
    by_cases h : p c = true
    · simp [List.takeWhile, h, ih]
    · rw [Bool.not_eq_true] at h
      simp [List.takeWhile, h]

theorem dropWhile_eq_trim_append (s : Str) :
    s.dropWhile isJsWS =
      jsTrim s ++ ((s.dropWhile isJsWS).reverse.takeWhile isJsWS).reverse := by
  conv_lhs => rw [← List.reverse_reverse (s.dropWhile isJsWS),
    ← List.takeWhile_append_dropWhile (p := isJsWS) (l := (s.dropWhile isJsWS).reverse)]
  rw [List.reverse_append]
  rfl

theorem jsTrim_decomp (s : Str) :
    ∃ a b, a.all isJsWS = true ∧ b.all isJsWS = true ∧ s = a ++ jsTrim s ++ b := by
  refine ⟨s.takeWhile isJsWS, ((s.dropWhile isJsWS).reverse.takeWhile isJsWS).reverse,
    takeWhile_all_ws isJsWS s, ?_, ?_⟩
  · rw [List.all_reverse]
    exact takeWhile_all_ws isJsWS _
  · conv_lhs => rw [← List.takeWhile_append_dropWhile (p := isJsWS) (l := s),
      dropWhile_eq_trim_append s]
    rw [List.append_assoc]

theorem jsTrim_head (s : Str) (c : Char) (t : Str) (h : jsTrim s = c :: t) :
    isJsWS c = false := by
  have hu : (s.dropWhile isJsWS).dropWhile isJsWS = s.dropWhile isJsWS :=
    dropWhile_dropWhile isJsWS s
  have hdec := dropWhile_eq_trim_append s
  rw [h] at hdec
  rw [hdec] at hu
  simp only [List.cons_append] at hu
  exact head_not_of_dropWhile_self isJsWS c _ hu

theorem jsTrim_idem (s : Str) : jsTrim (jsTrim s) = jsTrim s := by
  cases hr : jsTrim s with
  | nil => rfl
  | cons c t =>
    have hc : isJsWS c = false := jsTrim_head s c t hr
    have h1 : (c :: t : Str).dropWhile isJsWS = c :: t := by
      simp only [List.dropWhile, hc]
    show jsTrim (c :: t) = c :: t
    unfold jsTrim
    rw [h1]
    have h2 : (c :: t : Str).reverse.dropWhile isJsWS = (c :: t : Str).reverse := by
      have hrev : (jsTrim s).reverse = ((s.dropWhile isJsWS).reverse).dropWhile isJsWS := by
        unfold jsTrim
        rw [List.reverse_reverse]
      rw [← hr, hrev, dropWhile_dropWhile]
    rw [h2, List.reverse_reverse]

/-! ### Occurrences transfer along decompositions -/

theorem occAt_append_inner (pat u m v : Str) (j : Nat) (h : OccAt pat m j) :
    OccAt pat (u ++ m ++ v) (u.length + j) := by
  by_cases hp : pat = []
  · subst hp
    show leadsWith [] _ = true
    rfl
  · have hj : j < m.length := occAt_lt_length pat m j hp h
    unfold OccAt at h ⊢
    have hdrop : (u ++ m ++ v).drop (u.length + j) = m.drop j ++ v := by
      rw [List.append_assoc, List.drop_append, List.drop_append_of_le_length (by omega)]
    rw [hdrop]
    exact leadsWith_append_right pat (m.drop j) v h

theorem noOcc_of_decomp (pat s u m v : Str) (hs : s = u ++ m ++ v)
    (h : ∀ i, ¬ OccAt pat s i) : ∀ j, ¬ OccAt pat m j := by
  intro j hocc
  exact h (u.length + j) (hs ▸ occAt_append_inner pat u m v j hocc)

theorem lowerStr_append (a b : Str) : lowerStr (a ++ b) = lowerStr a ++ lowerStr b :=
  List.map_append lowerA a b

theorem lowerStr_length (s : Str) : (lowerStr s).length = s.length :=
  List.length_map s lowerA

theorem markerAt_of_decomp (x u m v : Str) (hx : x = u ++ m ++ v) (j : Nat)
    (h : MarkerAt m j) : MarkerAt x (u.length + j) := by
  obtain ⟨mk, hmem, hocc⟩ := h
  refine ⟨mk, hmem, ?_⟩
  have hlx : lowerStr x = lowerStr u ++ lowerStr m ++ lowerStr v := by
    rw [hx, lowerStr_append, lowerStr_append]
  have := occAt_append_inner (lowerStr ('\n' :: mk)) (lowerStr u) (lowerStr m)
    (lowerStr v) j hocc
  rw [lowerStr_length] at this
  rw [hlx]
  exact this

/-! ### Characterization of the marker scan -/

theorem markerStep_eq_optMin (text : Str) (acc : Option Nat) (m : Str) :
    markerStep text acc m = optMin acc (idxOfCI? ('\n' :: m) text) := by
  unfold markerStep optMin
  cases idxOfCI? ('\n' :: m) text <;> cases acc <;> rfl

theorem findMarkerIdx_eq_foldl (text : Str) :
    findMarkerIdx text =
      (markers.map fun m => idxOfCI? ('\n' :: m) text).foldl optMin none := by
  unfold findMarkerIdx
  rw [List.foldl_map]
  congr 1
  funext acc m
  exact markerStep_eq_optMin text acc m

theorem optMin_eq_left_or_right (a b : Option Nat) : optMin a b = a ∨ optMin a b = b := by
  unfold optMin
  cases a with
  | none => exact Or.inr rfl
  | some j =>
    cases b with
    | none => exact Or.inl rfl
    | some i =>
      by_cases h : i < j
      · right; simp [h]
      · left; simp [h]

theorem foldl_optMin_result (l : List (Option Nat)) :
    ∀ acc, l.foldl optMin acc = acc ∨ l.foldl optMin acc ∈ l := by
  induction l with
  | nil => intro acc; exact Or.inl rfl
  | cons o t ih =>
    intro acc
    have hfold : List.foldl optMin acc (o :: t) = List.foldl optMin (optMin acc o) t := rfl
    rcases ih (optMin acc o) with h | h
    · rcases optMin_eq_left_or_right acc o with h2 | h2
      · left; rw [hfold, h, h2]
      · right; rw [hfold, h, h2]; exact List.mem_cons_self o t
    · right
      rw [hfold]
      exact List.mem_cons_of_mem o h

theorem foldl_optMin_le_acc (l : List (Option Nat)) :
    ∀ acc i j, l.foldl optMin acc = some i → acc = some j → i ≤ j := by
  induction l with
  | nil =>
    intro acc i j h1 h2
    simp only [List.foldl_nil] at h1
    rw [h1] at h2
    injection h2 with h
    omega
  | cons o t ih =>
    intro acc i j h1 h2
    subst h2
    cases o with
    | none => exact ih _ i j h1 rfl
    | some k =>
      by_cases hk : k < j
      · have : i ≤ k := ih _ i k (by simpa [optMin, hk] using h1) rfl
        omega
      · exact ih _ i j (by simpa [optMin, hk] using h1) rfl

theorem foldl_optMin_le_mem (l : List (Option Nat)) :
    ∀ acc i j, l.foldl optMin acc = some i → some j ∈ l → i ≤ j := by
  induction l with
  | nil => intro _ _ _ _ h; simp at h
  | cons o t ih =>
    intro acc i j h1 hmem
    rcases List.mem_cons.mp hmem with heq | hmem'
    · subst heq
      cases acc with
      | none => exact foldl_optMin_le_acc t _ i j h1 rfl
      | some a =>
        by_cases hj : j < a
        · exact foldl_optMin_le_acc t _ i j (by simpa [optMin, hj] using h1) rfl
        · have : i ≤ a := foldl_optMin_le_acc t _ i a (by simpa [optMin, hj] using h1) rfl
          omega
    · exact ih _ i j h1 hmem'

theorem foldl_optMin_some_ne_none (l : List (Option Nat)) :
    ∀ k, l.foldl optMin (some k) ≠ none := by
  induction l with
  | nil => intro k h; exact absurd h (by simp)
  | cons o t ih =>
    intro k h
    cases o with
    | none => exact ih k h
    | some m =>
      by_cases hm : m < k
      · exact ih m (by simpa [optMin, hm] using h)
      · exact ih k (by simpa [optMin, hm] using h)

theorem foldl_optMin_ne_none (l : List (Option Nat)) :
    ∀ acc j, some j ∈ l → l.foldl optMin acc ≠ none := by
  induction l with
  | nil => intro _ _ h; simp at h
  | cons o t ih =>
    intro acc j hmem h1
    rcases List.mem_cons.mp hmem with heq | hmem'
    · subst heq
      cases acc with
      | none => exact foldl_optMin_some_ne_none t j h1
      | some a =>
        by_cases hj : j < a
        · exact foldl_optMin_some_ne_none t j (by simpa [optMin, hj] using h1)
        · exact foldl_optMin_some_ne_none t a (by simpa [optMin, hj] using h1)
    · exact ih _ j hmem' h1

theorem findMarkerIdx_none (text : Str) (h : findMarkerIdx text = none) :
    ∀ i, ¬ MarkerAt text i := by
  intro i hM
  obtain ⟨m, hmem, hocc⟩ := hM
  obtain ⟨k, _, hidx⟩ := idxOf?_le_of_occAt _ _ i hocc
  rw [findMarkerIdx_eq_foldl] at h
  exact foldl_optMin_ne_none _ none k
    (List.mem_map.mpr ⟨m, hmem, hidx⟩) h

theorem findMarkerIdx_some (text : Str) (i : Nat) (h : findMarkerIdx text = some i) :
    FirstMarkerAt text i := by
  rw [findMarkerIdx_eq_foldl] at h
  constructor
  · rcases foldl_optMin_result (markers.map fun m => idxOfCI? ('\n' :: m) text) none
      with hr | hr
    · rw [h] at hr; exact absurd hr (by simp)
    · rw [h] at hr
      obtain ⟨m, hmem, hEq⟩ := List.mem_map.mp hr
      exact ⟨m, hmem, ((idxOf?_eq_some_iff _ _ i).mp hEq).1⟩
  · intro j hj hM
    obtain ⟨m, hmem, hocc⟩ := hM
    obtain ⟨k, hk, hidx⟩ := idxOf?_le_of_occAt _ _ j hocc
    have : i ≤ k := foldl_optMin_le_mem _ none i k h (List.mem_map.mpr ⟨m, hmem, hidx⟩)
    omega

theorem findMarkerIdx_of_first (text : Str) (i : Nat) (h : FirstMarkerAt text i) :
    findMarkerIdx text = some i := by
  cases hfm : findMarkerIdx text with
  | none => exact absurd h.1 (findMarkerIdx_none text hfm i)
  | some k =>
    have hk := findMarkerIdx_some text k hfm
    have heq : i = k := by
      rcases Nat.lt_trichotomy i k with hlt | heq | hgt
      · exact absurd h.1 (hk.2 i hlt)
      · exact heq
      · exact absurd hk.1 (h.2 k hgt)
    rw [heq]

theorem findMarkerIdx_of_noMarker (text : Str) (h : ∀ i, ¬ MarkerAt text i) :
    findMarkerIdx text = none := by
  cases hfm : findMarkerIdx text with
  | none => rfl
  | some k => exact absurd (findMarkerIdx_some text k hfm).1 (h k)

/-! ### Branch computations of the splitters -/

theorem exDelim_ne_nil : exDelim ≠ [] := by decide

theorem catSep_ne_nil : catSep ≠ [] := by decide

theorem sep_eq_of_marker (text : Str) (i : Nat) (hx : text ≠ [])
    (hnd : jsIncludes exDelim text = false) (hm : findMarkerIdx text = some i) :
    separatePromptAndExample text =
      { prompt := jsTrim (text.take i), ex := some (jsTrim (text.drop i)) } := by
  simp [separatePromptAndExample, hx, hnd, hm]

theorem sep_eq_of_noMarker (text : Str) (hx : text ≠ [])
    (hnd : jsIncludes exDelim text = false) (hm : findMarkerIdx text = none) :
    separatePromptAndExample text = { prompt := jsTrim text, ex := none } := by
  simp [separatePromptAndExample, hx, hnd, hm]

theorem sep_eq_of_delim (text : Str) (hx : text ≠ [])
    (hd : jsIncludes exDelim text = true) :
    separatePromptAndExample text =
      { prompt := jsTrim ((jsSplit exDelim text).getD 0 []),
        ex := if 1 < (jsSplit exDelim text).length then
          some (jsTrim ((jsSplit exDelim text).getD 1 [])) else none } := by
  simp [separatePromptAndExample, hx, hd]

theorem gpo_eq_of_delim (text : Str) (hx : text ≠ [])
    (hd : jsIncludes exDelim text = true) :
    getPromptOnly text = jsTrim ((jsSplit exDelim text).getD 0 []) := by
  simp [getPromptOnly, hx, hd]

theorem gpo_eq_of_card (text : Str) (i : Nat) (hx : text ≠ [])
    (hnd : jsIncludes exDelim text = false) (hm : firstCardMarkerIdx text = some i) :
    getPromptOnly text = jsTrim (text.take i) := by
  simp [getPromptOnly, hx, hnd, hm]

theorem gpo_eq_of_noCard (text : Str) (hx : text ≠ [])
    (hnd : jsIncludes exDelim text = false) (hm : firstCardMarkerIdx text = none) :
    getPromptOnly text = text := by
  simp [getPromptOnly, hx, hnd, hm]

/-! ### Claim C3: parseCategory -/

/-- C3 counterexample: on the input consisting of a, space, greater-than,
space, the claim predicts the flat fallback with sub equal to the raw input
and never an empty sub-category, but parseCategory returns main a and an
empty sub. -/
theorem claim3_cex :
    parseCategory ("a > ".toList) = { main := some ("a".toList), sub := [] } ∧
    parseCategory ("a > ".toList) ≠ { main := none, sub := "a > ".toList } := by
  decide

/-- C3 amended: for a string without the separator (or empty), parseCategory
returns main null and sub the unchanged input; for a string whose first
separator occurrence is at index i, it returns main the untrimmed text
before the occurrence and sub the untrimmed text strictly between the first
and second occurrences, or the whole remainder when the separator occurs
only once; sub may be empty and nothing is trimmed. -/
theorem claim3_amended :
    (∀ raw : Str, jsIncludes catSep raw = false →
      parseCategory raw = { main := none, sub := raw }) ∧
    (∀ (raw : Str) (i : Nat), FirstOccAt catSep raw i →
      (jsIncludes catSep (raw.drop (i + catSep.length)) = false →
        parseCategory raw =
          { main := some (raw.take i), sub := raw.drop (i + catSep.length) }) ∧
      (∀ j, FirstOccAt catSep (raw.drop (i + catSep.length)) j →
        parseCategory raw =
          { main := some (raw.take i),
            sub := (raw.drop (i + catSep.length)).take j })) := by
  constructor
  · intro raw h
    simp [parseCategory, h]
  · intro raw i h
    have hidx : idxOf? catSep raw = some i := (idxOf?_eq_some_iff catSep raw i).mpr h
    have hinc : jsIncludes catSep raw = true := (jsIncludes_eq_true_iff _ _).mpr ⟨i, h.1⟩
    have hne : raw ≠ [] := by
      intro hnil
      subst hnil
      have := occAt_lt_length catSep [] i catSep_ne_nil h.1
      simp at this
    obtain ⟨h0, hlen, h1⟩ := jsSplit_parts_of_some catSep catSep_ne_nil raw i hidx
    have hpc : parseCategory raw =
        { main := some (raw.take i),
          sub := (jsSplit catSep (raw.drop (i + catSep.length))).getD 0 [] } := by
      unfold parseCategory
      rw [if_pos ⟨hne, hinc⟩, h0, h1]
    constructor
    · intro hnorest
      have hidx2 : idxOf? catSep (raw.drop (i + catSep.length)) = none := by
        cases hi2 : idxOf? catSep (raw.drop (i + catSep.length)) with
        | none => rfl
        | some k =>
          unfold jsIncludes at hnorest
          rw [hi2] at hnorest
          simp at hnorest
      rw [hpc, jsSplit_head_getD catSep catSep_ne_nil _, hidx2]
    · intro j hj
      have hidxj : idxOf? catSep (raw.drop (i + catSep.length)) = some j :=
        (idxOf?_eq_some_iff _ _ _).mpr hj
      rw [hpc, jsSplit_head_getD catSep catSep_ne_nil _, hidxj]

/-! ### Claim C4: the duplicate collision rule -/

/-- C4 counterexample: with an existing artifact of title t and category c
and a candidate of title t and category c-then-space, the rule of the claim
(both fields trimmed then lower-cased) reports a collision, but isDuplicate
reports none, because the source does not trim the category. -/
theorem claim4_cex :
    claimCollides { title := "t".toList, category := "c".toList }
        { title := "t".toList, category := "c ".toList } = true ∧
    isDuplicate [{ title := "t".toList, category := "c".toList }]
        { title := "t".toList, category := "c ".toList } = false := by
  decide

/-- C4 amended: the guard reports a collision if and only if some existing
artifact agrees with the candidate on the title after trimming and
lower-casing and on the category after lower-casing only, the category not
being trimmed; the Foo example of the claim still collides. -/
theorem claim4_amended :
    (∀ (existing : List Artifact) (cand : Artifact),
      isDuplicate existing cand = true ↔
        ∃ p ∈ existing, lowerStr (jsTrim p.title) = lowerStr (jsTrim cand.title) ∧
          lowerStr p.category = lowerStr cand.category) ∧
    isDuplicate [{ title := "  foo  ".toList, category := "a > b".toList }]
        { title := "Foo".toList, category := "A > B".toList } = true := by
  constructor
  · intro existing cand
    unfold isDuplicate
    rw [List.any_eq_true]
    constructor
    · rintro ⟨p, hp, hcond⟩
      rw [Bool.and_eq_true, beq_iff_eq, beq_iff_eq] at hcond
      exact ⟨p, hp, hcond⟩
    · rintro ⟨p, hp, h1, h2⟩
      refine ⟨p, hp, ?_⟩
      rw [Bool.and_eq_true, beq_iff_eq, beq_iff_eq]
      exact ⟨h1, h2⟩
  · decide

/-! ### Claim C5: the explicit delimiter rule -/

/-- C5 counterexample: on an input ending in the delimiter, with nothing
following it, the claim predicts a null example, but the splitter returns
the empty string as the example. -/
theorem claim5_cex :
    (separatePromptAndExample ("a---EXAMPLE---".toList)).ex = some [] ∧
    (separatePromptAndExample ("a---EXAMPLE---".toList)).ex ≠ none := by
  decide

/-- C5 amended: when the delimiter first occurs at index i, the prompt is
the trimmed text before that occurrence, and the example is never null: it
is the trimmed text strictly between the first and second occurrences, or
the trimmed remainder when the delimiter occurs only once (the empty string
when nothing follows). -/
theorem claim5_amended (text : Str) (i : Nat) (h : FirstOccAt exDelim text i) :
    (separatePromptAndExample text).prompt = jsTrim (text.take i) ∧
    (jsIncludes exDelim (text.drop (i + exDelim.length)) = false →
      (separatePromptAndExample text).ex =
        some (jsTrim (text.drop (i + exDelim.length)))) ∧
    (∀ j, FirstOccAt exDelim (text.drop (i + exDelim.length)) j →
      (separatePromptAndExample text).ex =
        some (jsTrim ((text.drop (i + exDelim.length)).take j))) := by
  have hidx : idxOf? exDelim text = some i := (idxOf?_eq_some_iff _ _ _).mpr h
  have hinc : jsIncludes exDelim text = true := (jsIncludes_eq_true_iff _ _).mpr ⟨i, h.1⟩
  have hne : text ≠ [] := by
    intro hnil
    subst hnil
    have := occAt_lt_length exDelim [] i exDelim_ne_nil h.1
    simp at this
  obtain ⟨h0, hlen, h1⟩ := jsSplit_parts_of_some exDelim exDelim_ne_nil text i hidx
  rw [sep_eq_of_delim text hne hinc]
  refine ⟨by rw [h0], ?_, ?_⟩
  · intro hnorest
    have hidx2 : idxOf? exDelim (text.drop (i + exDelim.length)) = none := by
      cases hi2 : idxOf? exDelim (text.drop (i + exDelim.length)) with
      | none => rfl
      | some k =>
        unfold jsIncludes at hnorest
        rw [hi2] at hnorest
        simp at hnorest
    simp only [if_pos hlen, h1, jsSplit_head_getD exDelim exDelim_ne_nil, hidx2]
  · intro j hj
    have hidxj : idxOf? exDelim (text.drop (i + exDelim.length)) = some j :=
      (idxOf?_eq_some_iff _ _ _).mpr hj
    simp only [if_pos hlen, h1, jsSplit_head_getD exDelim exDelim_ne_nil, hidxj]

/-- C5 witness: a concrete run of the amended claim, the delimiter at index
1 of the input and nothing but b after it. -/
theorem claim5_amended_witness :
    FirstOccAt exDelim ("a---EXAMPLE---b".toList) 1 ∧
    (separatePromptAndExample ("a---EXAMPLE---b".toList)).ex = some ("b".toList) := by
  refine ⟨by decide, ?_⟩
  rw [(claim5_amended ("a---EXAMPLE---b".toList) 1 (by decide)).2.1 (by decide)]
  decide

/-! ### Claim C7: one splitting routine for display, copy and preview -/

/-- C7 counterexample: on an input with a phrase marker but no literal
delimiter, the card preview splits at the marker while the copy handler
copies the whole body, so the three routines do not agree. -/
theorem claim7_cex :
    getPromptOnly ("a\nExample: b".toList) = "a".toList ∧
    handleCopyText ("a\nExample: b".toList) = "a\nExample: b".toList ∧
    getPromptOnly ("a\nExample: b".toList) ≠ handleCopyText ("a\nExample: b".toList) := by
  decide

/-- C7 amended: the three routines agree on every body that contains the
literal delimiter, each returning the trimmed text before its first
occurrence; without the delimiter they may differ, the copy handler having
no marker fallback and the card fallback being case-sensitive with a
shorter marker list. -/
theorem claim7_amended (text : Str) (h : jsIncludes exDelim text = true) :
    getPromptOnly text = handleCopyText text ∧
    handleCopyText text = (separatePromptAndExample text).prompt := by
  have hne : text ≠ [] := by
    intro hnil
    subst hnil
    exact absurd h (by decide)
  constructor
  · rw [gpo_eq_of_delim text hne h]
    unfold handleCopyText
    rw [if_pos h]
  · unfold handleCopyText
    rw [if_pos h, sep_eq_of_delim text hne h]

/-- C7 witness: the three routines on a concrete delimited body. -/
theorem claim7_amended_witness :
    jsIncludes exDelim ("x ---EXAMPLE--- y".toList) = true ∧
    getPromptOnly ("x ---EXAMPLE--- y".toList) = handleCopyText ("x ---EXAMPLE--- y".toList) ∧
    handleCopyText ("x ---EXAMPLE--- y".toList) =
      (separatePromptAndExample ("x ---EXAMPLE--- y".toList)).prompt := by
  refine ⟨by decide, ?_, ?_⟩
  · exact (claim7_amended ("x ---EXAMPLE--- y".toList) (by decide)).1
  · exact (claim7_amended ("x ---EXAMPLE--- y".toList) (by decide)).2

/-! ### Claim C9: duplicate rejection precedes creation -/

/-- C9: when the duplicate guard reports a collision for the submitted
form, handleSubmit surfaces the duplicate error and the create operation is
not invoked, so any stored artifact set is left unchanged. -/
theorem claim9_reject_before_create (existing : List Artifact) (f : FormData)
    (store : List Artifact)
    (h : isDuplicate existing { title := f.title, category := f.category } = true) :
    handleSubmit existing f = SubmitAction.reject dupErrorMsg ∧
    applySubmit store (handleSubmit existing f) = store := by
  unfold handleSubmit
  rw [if_pos h]
  exact ⟨rfl, rfl⟩

/-- C9 witness: a concrete duplicate submission is rejected and the store
kept unchanged. -/
theorem claim9_witness :
    isDuplicate [{ title := "t".toList, category := "c".toList }]
        { title := "T ".toList, category := "c".toList } = true ∧
    handleSubmit [{ title := "t".toList, category := "c".toList }]
        { title := "T ".toList, prompt_text := "p".toList, example_output := [],
          category := "c".toList } = SubmitAction.reject dupErrorMsg ∧
    applySubmit [] (handleSubmit [{ title := "t".toList, category := "c".toList }]
        { title := "T ".toList, prompt_text := "p".toList, example_output := [],
          category := "c".toList }) = [] := by
  have h := claim9_reject_before_create
    [{ title := "t".toList, category := "c".toList }]
    { title := "T ".toList, prompt_text := "p".toList, example_output := [],
      category := "c".toList } [] (by decide)
  exact ⟨by decide, h.1, h.2⟩

/-! ### Claim C2: the duplicate guard consults a limited listing -/

theorem dateDescLE_of_lt (a b : StoredArtifact) (h : b.createdAt < a.createdAt) :
    dateDescLE a b = true := by
  unfold dateDescLE
  rw [Bool.or_eq_true, decide_eq_true_eq]
  exact Or.inl h

theorem sortByDateDesc_descList : ∀ n, sortByDateDesc (descList n) = descList n := by
  intro n
  induction n with
  | zero => rfl
  | succ k ih =>
    show sortByDateDesc (mkOther (k + 1) :: descList k) = _
    unfold sortByDateDesc
    rw [ih]
    cases k with
    | zero =>
      show insertDesc (mkOther 1) [dupArt] = _
      unfold insertDesc
      rw [if_pos (dateDescLE_of_lt _ _ (by decide))]
      rfl
    | succ l =>
      show insertDesc (mkOther (l + 2)) (mkOther (l + 1) :: descList l) = _
      unfold insertDesc
      rw [if_pos (dateDescLE_of_lt _ _ (Nat.lt_succ_self (l + 1)))]
      rfl

theorem descList_take_titles : ∀ n k, k ≤ n → ∀ x ∈ (descList n).take k, x.title = otherTitle := by
  intro n
  induction n with
  | zero =>
    intro k hk x hx
    have hk0 : k = 0 := by omega
    subst hk0
    simp at hx
  | succ m ih =>
    intro k hk x hx
    cases k with
    | zero => simp at hx
    | succ l =>
      rw [show descList (m + 1) = mkOther (m + 1) :: descList m from rfl,
        List.take_succ_cons] at hx
      rcases List.mem_cons.mp hx with heq | hx'
      · subst heq; rfl
      · exact ih l (by omega) x hx'

theorem dupArt_mem_descList : ∀ n, dupArt ∈ descList n := by
  intro n
  induction n with
  | zero => exact List.mem_singleton.mpr rfl
  | succ m ih => exact List.mem_cons_of_mem _ ih

/-- C2, the divergence evaluated: with 501 stored artifacts, where only the
oldest one collides with the candidate, the duplicate guard run on the
listing fetched with limit=500 (as loadPrompts does) reports no duplicate,
although a colliding artifact is in the full store. -/
theorem claim2_limited_fetch_misses_duplicate :
    isDuplicate c2Fetched c2Candidate = false ∧
    ∃ a ∈ c2Store.map toArtifact,
      lowerStr (jsTrim a.title) = lowerStr (jsTrim c2Candidate.title) ∧
      lowerStr a.category = lowerStr c2Candidate.category := by
  constructor
  · have hfetched : c2Fetched = ((descList 500).take 500).map toArtifact := by
      unfold c2Fetched listPrompts c2Store
      rw [sortByDateDesc_descList]
    rw [hfetched]
    unfold isDuplicate
    rw [List.any_eq_false]
    intro p hp
    obtain ⟨x, hx, rfl⟩ := List.mem_map.mp hp
    have htitle : x.title = otherTitle := descList_take_titles 500 500 (le_refl _) x hx
    have hfalse : (lowerStr (jsTrim (toArtifact x).title) ==
        lowerStr (jsTrim c2Candidate.title)) = false := by
      show (lowerStr (jsTrim x.title) == lowerStr (jsTrim c2Candidate.title)) = false
      rw [htitle]
      decide
    rw [hfalse, Bool.false_and]
    exact Bool.false_ne_true
  · refine ⟨toArtifact dupArt,
      List.mem_map.mpr ⟨dupArt, dupArt_mem_descList 500, rfl⟩, by decide, by decide⟩

/-! ### Claim C1: the heuristic marker fallback -/

/-- C1: on any input without the literal delimiter, if the lowest-offset
case-insensitive newline-preceded occurrence of one of the nine phrases is
at index i, the splitter returns the trimmed text strictly before the
newline as the prompt and the trimmed text from the newline onward (marker
retained) as the example; if no phrase occurs, it returns the trimmed input
and a null example. -/
theorem claim1_marker_fallback (text : Str) (h : jsIncludes exDelim text = false) :
    (∀ i, FirstMarkerAt text i →
      separatePromptAndExample text =
        { prompt := jsTrim (text.take i), ex := some (jsTrim (text.drop i)) }) ∧
    ((∀ i, ¬ MarkerAt text i) →
      separatePromptAndExample text = { prompt := jsTrim text, ex := none }) := by
  by_cases hx : text = []
  · subst hx
    constructor
    · intro i hfirst
      obtain ⟨m, _, hocc⟩ := hfirst.1
      have hne : lowerStr ('\n' :: m) ≠ [] := by simp [lowerStr]
      have hlt := occAt_lt_length _ _ i hne hocc
      simp [lowerStr] at hlt
    · intro _
      rfl
  · constructor
    · intro i hfirst
      exact sep_eq_of_marker text i hx h (findMarkerIdx_of_first text i hfirst)
    · intro hno
      exact sep_eq_of_noMarker text hx h (findMarkerIdx_of_noMarker text hno)

/-- C1 witness: a concrete input with the phrase Example: at line start,
and its split. -/
theorem claim1_witness :
    jsIncludes exDelim ("x\nExample: y".toList) = false ∧
    FirstMarkerAt ("x\nExample: y".toList) 1 ∧
    separatePromptAndExample ("x\nExample: y".toList) =
      { prompt := "x".toList, ex := some ("Example: y".toList) } := by
  refine ⟨by decide, by decide, ?_⟩
  rw [(claim1_marker_fallback ("x\nExample: y".toList) (by decide)).1 1 (by decide)]
  decide

/-! ### Claim C8: purity, totality and trimming -/

/-- C8: the splitter is a total function of the input string; on the empty
string it returns the empty prompt and a null example; trimming removes only
leading and trailing whitespace, leaving a contiguous inner segment intact;
and every returned prompt is already trimmed. -/
theorem claim8_pure_total :
    separatePromptAndExample [] = { prompt := [], ex := none } ∧
    (∀ s : Str, ∃ a b, a.all isJsWS = true ∧ b.all isJsWS = true ∧
      s = a ++ jsTrim s ++ b) ∧
    (∀ text : Str,
      jsTrim ((separatePromptAndExample text).prompt) =
        (separatePromptAndExample text).prompt) := by
  refine ⟨rfl, jsTrim_decomp, ?_⟩
  intro text
  by_cases hx : text = []
  · subst hx; rfl
  · by_cases hd : jsIncludes exDelim text = true
    · rw [sep_eq_of_delim text hx hd]
      exact jsTrim_idem _
    · rw [Bool.not_eq_true] at hd
      cases hm : findMarkerIdx text with
      | some i =>
        rw [sep_eq_of_marker text i hx hd hm]
        exact jsTrim_idem _
      | none =>
        rw [sep_eq_of_noMarker text hx hd hm]
        exact jsTrim_idem _

/-! ### Claim C10: prompts and examples are contiguous regions of the input -/

theorem trimTake_decomp (text : Str) (i : Nat) :
    ∃ a w, a.all isJsWS = true ∧ w.all isJsWS = true ∧
      text = a ++ jsTrim (text.take i) ++ (w ++ text.drop i) := by
  obtain ⟨a, w, ha, hw, hdec⟩ := jsTrim_decomp (text.take i)
  refine ⟨a, w, ha, hw, ?_⟩
  conv_lhs => rw [← List.take_append_drop i text, hdec]
  simp [List.append_assoc]

/-- C10: for every input, the prompt component of the modal splitter is a
contiguous segment of the input preceded only by whitespace (a prefix up to
trimming), the example component when present is a contiguous segment of
the remainder after the prompt region, the regions do not overlap, and the
same holds of the card preview extraction. -/
theorem claim10_contiguous (text : Str) :
    (∃ a m b, text = a ++ m ++ b ∧ a.all isJsWS = true ∧
      (separatePromptAndExample text).prompt = m ∧
      ∀ e, (separatePromptAndExample text).ex = some e → ∃ c d, b = c ++ e ++ d) ∧
    (∃ a m b, text = a ++ m ++ b ∧ a.all isJsWS = true ∧ getPromptOnly text = m) := by
  by_cases hx : text = []
  · subst hx
    refine ⟨⟨[], [], [], rfl, rfl, rfl, ?_⟩, ⟨[], [], [], rfl, rfl, rfl⟩⟩
    intro e he
    exact absurd he (by simp [separatePromptAndExample])
  constructor
  · by_cases hd : jsIncludes exDelim text = true
    · obtain ⟨i, hidx⟩ : ∃ i, idxOf? exDelim text = some i := by
        unfold jsIncludes at hd
        cases hi : idxOf? exDelim text with
        | none => rw [hi] at hd; simp at hd
        | some i => exact ⟨i, rfl⟩
      obtain ⟨h0, hlen, h1⟩ := jsSplit_parts_of_some exDelim exDelim_ne_nil text i hidx
      rw [sep_eq_of_delim text hx hd]
      obtain ⟨a, w, ha, hw, hdec⟩ := trimTake_decomp text i
      refine ⟨a, jsTrim (text.take i), w ++ text.drop i, hdec, ha, by rw [h0], ?_⟩
      intro e he
      rw [if_pos hlen, h1] at he
      injection he with he
      subst he
      have hsplitrest : ∃ u v, text.drop (i + exDelim.length) = u ++ v ∧
          (jsSplit exDelim (text.drop (i + exDelim.length))).getD 0 [] = u := by
        cases hi2 : idxOf? exDelim (text.drop (i + exDelim.length)) with
        | none =>
          refine ⟨text.drop (i + exDelim.length), [], by simp, ?_⟩
          rw [jsSplit_head_getD exDelim exDelim_ne_nil _, hi2]
        | some j =>
          refine ⟨(text.drop (i + exDelim.length)).take j,
            (text.drop (i + exDelim.length)).drop j,
            (List.take_append_drop j _).symm, ?_⟩
          rw [jsSplit_head_getD exDelim exDelim_ne_nil _, hi2]
      obtain ⟨u, v, huv, hu⟩ := hsplitrest
      rw [hu]
      obtain ⟨a2, w2, _, _, hdec2⟩ := jsTrim_decomp u
      have hdropsplit : text.drop i =
          (text.drop i).take exDelim.length ++ text.drop (i + exDelim.length) := by
        have hdd : (text.drop i).drop exDelim.length = text.drop (i + exDelim.length) := by
          rw [List.drop_drop, Nat.add_comm]
        rw [← hdd, List.take_append_drop]
      refine ⟨w ++ (text.drop i).take exDelim.length ++ a2, w2 ++ v, ?_⟩
      conv_lhs => rw [hdropsplit, huv, hdec2]
      simp only [List.append_assoc]
    · rw [Bool.not_eq_true] at hd
      cases hm : findMarkerIdx text with
      | some i =>
        rw [sep_eq_of_marker text i hx hd hm]
        obtain ⟨a, w, ha, hw, hdec⟩ := trimTake_decomp text i
        refine ⟨a, jsTrim (text.take i), w ++ text.drop i, hdec, ha, rfl, ?_⟩
        intro e he
        injection he with he
        subst he
        obtain ⟨a2, w2, _, _, hdec2⟩ := jsTrim_decomp (text.drop i)
        refine ⟨w ++ a2, w2, ?_⟩
        conv_lhs => rw [hdec2]
        simp [List.append_assoc]
      | none =>
        rw [sep_eq_of_noMarker text hx hd hm]
        obtain ⟨a, b, ha, _, hdec⟩ := jsTrim_decomp text
        refine ⟨a, jsTrim text, b, hdec, ha, rfl, ?_⟩
        intro e he
        exact absurd he (by simp)
  · by_cases hd : jsIncludes exDelim text = true
    · obtain ⟨i, hidx⟩ : ∃ i, idxOf? exDelim text = some i := by
        unfold jsIncludes at hd
        cases hi : idxOf? exDelim text with
        | none => rw [hi] at hd; simp at hd
        | some i => exact ⟨i, rfl⟩
      rw [gpo_eq_of_delim text hx hd, jsSplit_head_getD exDelim exDelim_ne_nil text, hidx]
      obtain ⟨a, w, ha, hw, hdec⟩ := trimTake_decomp text i
      exact ⟨a, jsTrim (text.take i), w ++ text.drop i, hdec, ha, rfl⟩
    · rw [Bool.not_eq_true] at hd
      cases hm : firstCardMarkerIdx text with
      | some i =>
        rw [gpo_eq_of_card text i hx hd hm]
        obtain ⟨a, w, ha, hw, hdec⟩ := trimTake_decomp text i
        exact ⟨a, jsTrim (text.take i), w ++ text.drop i, hdec, ha, rfl⟩
      | none =>
        rw [gpo_eq_of_noCard text hx hd hm]
        exact ⟨[], text, [], by simp, rfl, rfl⟩

/-! ### Claim C6: idempotence of the splitter on the prompt component -/

theorem sep_prompt_of_clean (p : Str) (hd : ∀ i, ¬ OccAt exDelim p i)
    (hmk : ∀ i, ¬ MarkerAt p i) (u : Str) (hp : p = jsTrim u) :
    (separatePromptAndExample p).prompt = p := by
  by_cases hpe : p = []
  · subst hpe; rfl
  · have hnd : jsIncludes exDelim p = false := (jsIncludes_eq_false_iff _ _).mpr hd
    have hn : findMarkerIdx p = none := findMarkerIdx_of_noMarker p hmk
    rw [sep_eq_of_noMarker p hpe hnd hn]
    show jsTrim p = p
    rw [hp, jsTrim_idem]

/-- C6 counterexample: re-splitting the prompt extracted from a body whose
text before the delimiter contains a line-start phrase marker splits
further, so the claimed idempotence fails on that input. -/
theorem claim6_cex :
    (separatePromptAndExample ((separatePromptAndExample
        ("a\nExample: b\n---EXAMPLE---c".toList)).prompt)).prompt ≠
      (separatePromptAndExample ("a\nExample: b\n---EXAMPLE---c".toList)).prompt := by
  decide

/-- C6 amended: the splitter is idempotent on the prompt component for
every input that does not contain the literal delimiter; when the delimiter
is present, the extracted prompt may retain a phrase marker at which a
re-split cuts again. -/
theorem claim6_idem_no_delim (x : Str) (h : jsIncludes exDelim x = false) :
    (separatePromptAndExample ((separatePromptAndExample x).prompt)).prompt =
      (separatePromptAndExample x).prompt := by
  by_cases hx : x = []
  · subst hx; rfl
  · have hall : ∀ i, ¬ OccAt exDelim x i := (jsIncludes_eq_false_iff _ _).mp h
    cases hm : findMarkerIdx x with
    | some i =>
      rw [sep_eq_of_marker x i hx h hm]
      show (separatePromptAndExample (jsTrim (x.take i))).prompt = jsTrim (x.take i)
      have hfirst := findMarkerIdx_some x i hm
      obtain ⟨a, w, ha, hw, hdec0⟩ := jsTrim_decomp (x.take i)
      have hdec : x = a ++ jsTrim (x.take i) ++ (w ++ x.drop i) := by
        conv_lhs => rw [← List.take_append_drop i x, hdec0]
        simp [List.append_assoc]
      have hdp : ∀ j, ¬ OccAt exDelim (jsTrim (x.take i)) j :=
        noOcc_of_decomp exDelim x a (jsTrim (x.take i)) (w ++ x.drop i) hdec hall
      have hmp : ∀ j, ¬ MarkerAt (jsTrim (x.take i)) j := by
        intro j hMj
        have hMx : MarkerAt x (a.length + j) :=
          markerAt_of_decomp x a (jsTrim (x.take i)) (w ++ x.drop i) hdec j hMj
        obtain ⟨mk, _, hocc⟩ := hMj
        have hpatne : lowerStr ('\n' :: mk) ≠ [] := by simp [lowerStr]
        have hjlt := occAt_lt_length _ _ j hpatne hocc
        rw [lowerStr_length] at hjlt
        have hlen0 : a.length + (jsTrim (x.take i)).length ≤ (x.take i).length := by
          conv_rhs => rw [hdec0]
          simp only [List.length_append]
          omega
        have hleni : (x.take i).length ≤ i := by
          rw [List.length_take]
          exact min_le_left i x.length
        exact hfirst.2 (a.length + j) (by omega) hMx
      exact sep_prompt_of_clean (jsTrim (x.take i)) hdp hmp (x.take i) rfl
    | none =>
      rw [sep_eq_of_noMarker x hx h hm]
      show (separatePromptAndExample (jsTrim x)).prompt = jsTrim x
      have hno := findMarkerIdx_none x hm
      obtain ⟨a, b, ha, hb, hdec⟩ := jsTrim_decomp x
      have hdp : ∀ j, ¬ OccAt exDelim (jsTrim x) j :=
        noOcc_of_decomp exDelim x a (jsTrim x) b hdec hall
      have hmp : ∀ j, ¬ MarkerAt (jsTrim x) j := by
        intro j hMj
        exact hno (a.length + j) (markerAt_of_decomp x a (jsTrim x) b hdec j hMj)
      exact sep_prompt_of_clean (jsTrim x) hdp hmp x rfl

/-- C6 witness: a plain input without the delimiter, where re-splitting the
prompt is stable. -/
theorem claim6_witness :
    jsIncludes exDelim ("plain text".toList) = false ∧
    (separatePromptAndExample ((separatePromptAndExample
        ("plain text".toList)).prompt)).prompt =
      (separatePromptAndExample ("plain text".toList)).prompt :=
  ⟨by decide, claim6_idem_no_delim ("plain text".toList) (by decide)⟩

end PromptRepo
